import Mathlib

/-!
# Verification of the connection-resolution, backup and reconciliation engine

Shallow embedding of the core of the repository:

* `get_connection_string` (src/functions_provider_utils.py, lines 60-94):
  connection resolution over a `DbConfig` with a probe oracle standing for
  `engine.connect()`.
* `backup_table` (src/functions_provider_utils.py, lines 269-276) and
  `update_table` (src/script_provider_supervisor_table_update.py):
  the reconciliation run - clear backup, copy backup, per-row
  update-then-insert loop, single delete pass, with the source's exception
  handling (the top-level `except` logs, `backup_table` swallows its own
  errors).
* `insert_data_to_sql` (src/script_oon_monthly.py, lines 85-111):
  chunked bulk insertion.

Database effects are modelled at the statement level: a table is a list of
rows, each `execute_query` call is a step on that list, and a fault oracle
(indexed by the sequence number of the statement, or by the probed
connection string) decides whether the underlying engine raises, yielding
the exception message it would carry.  SQL-string minutiae (quoting,
injection, the syntax of an empty `NOT IN ()` list) are below the
granularity of the embedding.
-/

set_option autoImplicit false

/-! ## ConnectionResolver: `get_connection_string` -/

/-- The `db_config` dictionary as read by `get_connection_string`.  Each
field models `db_config.get(key, '')` / `db_config[key]`: a missing key is
the empty string. -/
structure DbConfig where
  driver_conn : String
  sso : String
  server : String
  database : String
  user : String
  password : String
deriving Repr, DecidableEq

/-- `f"mssql+pyodbc://@{db_config['driver_conn']}"`. -/
def driverConnStr (cfg : DbConfig) : String :=
  "mssql+pyodbc://@" ++ cfg.driver_conn

/-- `f"mssql+pyodbc://{server}/{database}?trusted_connection=yes&driver=SQL+Server"`. -/
def ssoConnStr (cfg : DbConfig) : String :=
  "mssql+pyodbc://" ++ cfg.server ++ "/" ++ cfg.database ++
    "?trusted_connection=yes&driver=SQL+Server"

/-- `f"mssql+pyodbc://{user}:{password}@{server}/{database}?driver=SQL+Server"`. -/
def basicConnStr (cfg : DbConfig) : String :=
  "mssql+pyodbc://" ++ cfg.user ++ ":" ++ cfg.password ++ "@" ++ cfg.server ++
    "/" ++ cfg.database ++ "?driver=SQL+Server"

/-- Python's `str.lower()` as used on the configuration flags: character
by character lowercasing (the flags are ASCII words such as `'Yes'`,
`'no'`).  Written as a map over the character list so that the kernel can
evaluate it on literals. -/
def lowerStr (s : String) : String := ⟨s.data.map Char.toLower⟩

/-- Outcome of `get_connection_string`: either the returned connection
string or the raised `ValueError`'s message. -/
inductive ConnResult where
  | ok (connStr : String)
  | error (msg : String)
deriving Repr, DecidableEq

/-- Observable trace of one `get_connection_string` call.  `errorLog` is
the sequence of `logger.error` lines emitted for failed probes, in order;
`attempted` records which methods were probed, in order (instrumentation:
it does not influence the result). -/
structure ConnOutcome where
  result : ConnResult
  errorLog : List String
  attempted : List String
deriving Repr, DecidableEq

/-- `get_connection_string(db_config)` (src/functions_provider_utils.py,
lines 60-94).  `probe s` models `create_engine(s).connect()` followed by
`close()`: `none` means the connection succeeded, `some e` the exception
message.  The three guarded blocks are translated in source order:
driver connection unless `driver_conn` is `'no'`, SSO when `sso` is
`'yes'`, basic authentication when `sso` is `'no'`; if no block returns,
`raise ValueError("No valid connection method could be established.")`. -/
def get_connection_string (cfg : DbConfig) (probe : String → Option String) :
    ConnOutcome :=
  let basicStep : List String → List String → ConnOutcome := fun att log =>
    if lowerStr cfg.sso = "no" then
      match probe (basicConnStr cfg) with
      | none => { result := .ok (basicConnStr cfg), errorLog := log,
                  attempted := att ++ ["basic"] }
      | some e =>
          { result := .error "No valid connection method could be established.",
            errorLog := log ++ ["Failed to use basic authentication: " ++ e],
            attempted := att ++ ["basic"] }
    else
      { result := .error "No valid connection method could be established.",
        errorLog := log, attempted := att }
  let ssoStep : List String → List String → ConnOutcome := fun att log =>
    if lowerStr cfg.sso = "yes" then
      match probe (ssoConnStr cfg) with
      | none => { result := .ok (ssoConnStr cfg), errorLog := log,
                  attempted := att ++ ["sso"] }
      | some e => basicStep (att ++ ["sso"]) (log ++ ["Failed to use SSO: " ++ e])
    else basicStep att log
  if lowerStr cfg.driver_conn ≠ "no" then
    match probe (driverConnStr cfg) with
    | none => { result := .ok (driverConnStr cfg), errorLog := [],
                attempted := ["driver"] }
    | some e => ssoStep ["driver"] ["Failed to use driver: " ++ e]
  else ssoStep [] []

/-- The methods whose guard in `get_connection_string` is enabled by the
configuration flags, in the order the source checks them.  Note basic
authentication is guarded by `sso == 'no'`, and is therefore mutually
exclusive with the SSO method. -/
def enabledMethods (cfg : DbConfig) : List String :=
  (if lowerStr cfg.driver_conn ≠ "no" then ["driver"] else []) ++
    (if lowerStr cfg.sso = "yes" then ["sso"]
     else if lowerStr cfg.sso = "no" then ["basic"] else [])

/-! ## TableReconciler / BackupCoordinator: `update_table` and `backup_table` -/

/-- One row of the supervisor table / the SharePoint snapshot:
`[US Domain ID]` is the natural key, `[Associate Name]` and
`[Supervisor Name]` are the non-key columns the UPDATE sets. -/
structure SupRow where
  usDomainId : String
  associateName : String
  supervisorName : String
deriving Repr, DecidableEq

/-- Effect on the target table of
`UPDATE t SET [Associate Name] = :a, [Supervisor Name] = :s WHERE [US Domain ID] = :k`:
every row whose key equals `k` gets the new non-key values, in place. -/
def applyUpdateStmt (k a s : String) (t : List SupRow) : List SupRow :=
  t.map fun r =>
    if r.usDomainId = k then { r with associateName := a, supervisorName := s }
    else r

/-- `result.rowcount` of that UPDATE: the number of rows matched by
`[US Domain ID] = :k`. -/
def updateRowcount (k : String) (t : List SupRow) : Nat :=
  (t.filter fun r => r.usDomainId = k).length

/-- A fault oracle for a reconciliation run: `fault n = some e` means the
`n`-th `execute_query` call of the run (0-based, counting every statement
the run issues in order) raises an exception with message `e`. -/
def noFault : Nat → Option String := fun _ => none

/-- Fault oracle that fails exactly the `k`-th statement with message `e`. -/
def failOnly (k : Nat) (e : String) : Nat → Option String :=
  fun n => if n = k then some e else none

/-- State of the per-row loop of `update_table` when it stops (normally or
by an exception): the table, the index of the next statement, the keys
logged as updated / inserted so far, and the message of the statement that
raised, if one did. -/
structure LoopState where
  table : List SupRow
  idx : Nat
  updatedKeys : List String
  insertedKeys : List String
  err : Option String
deriving Repr, DecidableEq

/-- The `for index, row in data_df.iterrows()` loop of `update_table`
(src/script_provider_supervisor_table_update.py, lines 59-91).  Arguments:
remaining snapshot rows, current table, index of the next statement,
keys logged as updated so far, keys logged as inserted so far.  Each row
first issues the UPDATE; if its `rowcount` is zero the INSERT of the full
row follows; a raising statement aborts the loop. -/
def processRows (fault : Nat → Option String) :
    List SupRow → List SupRow → Nat → List String → List String → LoopState
  | [], t, idx, upd, ins =>
      { table := t, idx := idx, updatedKeys := upd, insertedKeys := ins,
        err := none }
  | r :: rest, t, idx, upd, ins =>
    match fault idx with
    | some e =>
        { table := t, idx := idx, updatedKeys := upd, insertedKeys := ins,
          err := some e }
    | none =>
      let rc := updateRowcount r.usDomainId t
      let t1 := applyUpdateStmt r.usDomainId r.associateName r.supervisorName t
      if rc > 0 then
        processRows fault rest t1 (idx + 1) (upd ++ [r.usDomainId]) ins
      else
        match fault (idx + 1) with
        | some e =>
            { table := t1, idx := idx + 1, updatedKeys := upd,
              insertedKeys := ins, err := some e }
        | none =>
          processRows fault rest (t1 ++ [r]) (idx + 2) upd (ins ++ [r.usDomainId])

/-- Observable outcome of one `update_table()` run: final production and
backup tables, the keys logged as updated / inserted, the keys removed by
the delete pass, whether the delete statement executed successfully, the
`logger.error` line emitted inside `backup_table` (if its copy failed) and
the `logger.error` line emitted by `update_table`'s top-level `except`
(if any statement outside `backup_table` raised). -/
structure RunResult where
  prod : List SupRow
  backup : List SupRow
  updatedKeys : List String
  insertedKeys : List String
  deletedKeys : List String
  deletePassRan : Bool
  backupErrorLog : Option String
  topErrorLog : Option String
deriving Repr, DecidableEq

/-- `update_table()` (src/script_provider_supervisor_table_update.py) from
the point where the snapshot `data` and the connection string exist.
Statement order, as in the source: statement 0 clears the backup table
(`DELETE FROM backup`, issued directly by `update_table`, so a failure
propagates to the top-level `except`, which logs and returns); statement 1
is `INSERT INTO backup SELECT * FROM prod` issued inside `backup_table`
(src/functions_provider_utils.py, lines 269-276), whose own
`except ... logger.error` swallows a failure and returns normally; then the
per-row loop (statements 2, 3, ...); finally the single
`DELETE ... WHERE [US Domain ID] NOT IN (csv_ids)` pass, with `csv_ids`
the set of all snapshot keys, computed before the loop. -/
def update_table (data : List SupRow) (prod0 backup0 : List SupRow)
    (fault : Nat → Option String) : RunResult :=
  match fault 0 with
  | some e =>
      { prod := prod0, backup := backup0, updatedKeys := [], insertedKeys := [],
        deletedKeys := [], deletePassRan := false, backupErrorLog := none,
        topErrorLog := some ("An error occurred: " ++ e) }
  | none =>
    let cleared : List SupRow := []
    let backupStep : List SupRow × Option String :=
      match fault 1 with
      | some e => (cleared, some ("An error occurred during backup: " ++ e))
      | none => (cleared ++ prod0, none)
    let csvIds := data.map (·.usDomainId)
    let s := processRows fault data prod0 2 [] []
    match s.err with
    | some e =>
        { prod := s.table, backup := backupStep.1, updatedKeys := s.updatedKeys,
          insertedKeys := s.insertedKeys, deletedKeys := [],
          deletePassRan := false, backupErrorLog := backupStep.2,
          topErrorLog := some ("An error occurred: " ++ e) }
    | none =>
      match fault s.idx with
      | some e =>
          { prod := s.table, backup := backupStep.1,
            updatedKeys := s.updatedKeys, insertedKeys := s.insertedKeys,
            deletedKeys := [], deletePassRan := false,
            backupErrorLog := backupStep.2,
            topErrorLog := some ("An error occurred: " ++ e) }
      | none =>
          { prod := s.table.filter fun r => r.usDomainId ∈ csvIds,
            backup := backupStep.1, updatedKeys := s.updatedKeys,
            insertedKeys := s.insertedKeys,
            deletedKeys := (s.table.filter fun r => r.usDomainId ∉ csvIds).map
              (·.usDomainId),
            deletePassRan := true, backupErrorLog := backupStep.2,
            topErrorLog := none }

/-! ## BatchLoader: `insert_data_to_sql` -/

/-- Observable outcome of one `insert_data_to_sql` call over rows of type
`α` (a row is the dictionary `data.to_dict(orient='records')` produces;
the loader never inspects it).  `sent` is the payload of each insert
statement that was executed, in order; `progress` the cumulative
`inserted_rows` value logged after each executed chunk; `raised` the
message of the exception that propagated out of the call, if any. -/
structure LoadResult (α : Type) where
  sent : List (List α)
  progress : List Nat
  raised : Option String
deriving Repr, DecidableEq

/-- `range(0, n, bs)` for `bs > 0`: the chunk start offsets
`i * bs` for `i < ceil(n / bs)`. -/
def chunkStarts (n bs : Nat) : List Nat :=
  (List.range ((n + bs - 1) / bs)).map fun i => i * bs

/-- The `for batch_start in range(0, len(data_tuples), batch_size)` loop of
`insert_data_to_sql` (src/script_oon_monthly.py, lines 96-105).  Arguments:
the full row list, the batch size, the remaining chunk starts, the index of
the next chunk and the `inserted_rows` accumulator.  `fault i = some e`
means the insert statement of chunk `i` raises with message `e`; the
`except SQLAlchemyError` handler logs and re-raises, so the loop stops and
`e` propagates. -/
def runChunks {α : Type} (fault : Nat → Option String) (data : List α) (bs : Nat) :
    List Nat → Nat → Nat → LoadResult α
  | [], _, _ => { sent := [], progress := [], raised := none }
  | s :: rest, idx, acc =>
    let batch := (data.drop s).take bs
    match fault idx with
    | some e => { sent := [], progress := [], raised := some e }
    | none =>
      let r := runChunks fault data bs rest (idx + 1) (acc + batch.length)
      { sent := batch :: r.sent, progress := (acc + batch.length) :: r.progress,
        raised := r.raised }

/-- `insert_data_to_sql(data, table_name, engine, batch_size)`
(src/script_oon_monthly.py, lines 85-111).  `table_name` only feeds the
SQL text of the insert statement, never the control flow.  `bs` is a
Python integer: `range(0, n, 0)` raises
`ValueError: range() arg 3 must not be zero` (a `ValueError` is not an
`SQLAlchemyError`, so it propagates uncaught); a negative step makes
`range(0, n, bs)` empty, so no statement runs and `inserted_rows` stays 0;
a positive step yields the starts `0, bs, 2*bs, ...` below `n`. -/
def insert_data_to_sql {α : Type} (rows : List α) (tableName : String) (bs : Int)
    (fault : Nat → Option String) : LoadResult α :=
  if bs = 0 then
    { sent := [], progress := [], raised := some "range() arg 3 must not be zero" }
  else if bs < 0 then { sent := [], progress := [], raised := none }
  else runChunks fault rows bs.toNat (chunkStarts rows.length bs.toNat) 0 0

/-- The cumulative sums the progress log reports: after a chunk of length
`l` the running count grows by `l`. -/
def cumSums {α : Type} (acc : Nat) : List (List α) → List Nat
  | [] => []
  | c :: cs => (acc + c.length) :: cumSums (acc + c.length) cs

/-- The chunk list `[data[s:s+bs] for s in range(0, len(data), bs)]`. -/
def pyChunks {α : Type} (data : List α) (bs : Nat) : List (List α) :=
  (chunkStarts data.length bs).map fun s => (data.drop s).take bs

/-! ## Lemmas about the reconciliation loop -/

/-- The key column of a table, in row order. -/
def keysOf (t : List SupRow) : List String := t.map (·.usDomainId)

theorem keysOf_applyUpdateStmt (k a s : String) (t : List SupRow) :
    keysOf (applyUpdateStmt k a s t) = keysOf t := by
  induction t with
  | nil => rfl
  | cons r rest ih =>
      simp only [keysOf, applyUpdateStmt, List.map_cons] at ih ⊢
      by_cases h : r.usDomainId = k <;> simp [h, ih]

theorem keysOf_append (t u : List SupRow) :
    keysOf (t ++ u) = keysOf t ++ keysOf u := by
  simp [keysOf]

theorem updateRowcount_pos_iff (k : String) (t : List SupRow) :
    0 < updateRowcount k t ↔ k ∈ keysOf t := by
  simp only [updateRowcount, keysOf, List.length_pos, Ne, List.filter_eq_nil_iff,
    List.mem_map, not_forall]
  constructor
  · rintro ⟨r, hr, hk⟩
    simp only [decide_eq_true_eq, not_not] at hk
    exact ⟨r, hr, hk⟩
  · rintro ⟨r, hr, hk⟩
    exact ⟨r, hr, by simp [hk]⟩

theorem keysOf_cons (r : SupRow) (t : List SupRow) :
    keysOf (r :: t) = r.usDomainId :: keysOf t := rfl

/-- Fault-free loop, snapshot keys unique: the loop never errors, the
updated bucket collects exactly the snapshot keys already present in the
initial table, the inserted bucket exactly the others (both in snapshot
order), and the final table's key column is the initial key column
followed by the inserted keys. -/
theorem processRows_noFault_spec (data : List SupRow) :
    ∀ (t : List SupRow) (idx : Nat) (upd ins : List String),
      (keysOf data).Nodup →
      (processRows noFault data t idx upd ins).err = none ∧
      (processRows noFault data t idx upd ins).updatedKeys =
        upd ++ (keysOf data).filter (· ∈ keysOf t) ∧
      (processRows noFault data t idx upd ins).insertedKeys =
        ins ++ (keysOf data).filter (· ∉ keysOf t) ∧
      keysOf (processRows noFault data t idx upd ins).table =
        keysOf t ++ (keysOf data).filter (· ∉ keysOf t) := by
  induction data with
  | nil => intro t idx upd ins _; simp [processRows, keysOf]
  | cons r rest ih =>
    intro t idx upd ins hnd
    rw [keysOf_cons, List.nodup_cons] at hnd
    obtain ⟨hknot, hnd'⟩ := hnd
    by_cases hmem : r.usDomainId ∈ keysOf t
    · have hrc : 0 < updateRowcount r.usDomainId t :=
        (updateRowcount_pos_iff _ _).2 hmem
      have step : processRows noFault (r :: rest) t idx upd ins =
          processRows noFault rest
            (applyUpdateStmt r.usDomainId r.associateName r.supervisorName t)
            (idx + 1) (upd ++ [r.usDomainId]) ins := by
        simp [processRows, noFault, hrc]
      obtain ⟨h1, h2, h3, h4⟩ :=
        ih (applyUpdateStmt r.usDomainId r.associateName r.supervisorName t)
          (idx + 1) (upd ++ [r.usDomainId]) ins hnd'
      rw [keysOf_applyUpdateStmt] at h2 h3 h4
      refine ⟨by rw [step]; exact h1, ?_, ?_, ?_⟩
      · rw [step, h2, keysOf_cons, List.filter_cons_of_pos (by simpa using hmem),
          List.append_assoc, List.singleton_append]
      · rw [step, h3, keysOf_cons, List.filter_cons_of_neg (by simpa using hmem)]
      · rw [step, h4, keysOf_cons, List.filter_cons_of_neg (by simpa using hmem)]
    · have hrc : ¬ 0 < updateRowcount r.usDomainId t := by
        rw [updateRowcount_pos_iff]; exact hmem
      have step : processRows noFault (r :: rest) t idx upd ins =
          processRows noFault rest
            (applyUpdateStmt r.usDomainId r.associateName r.supervisorName t
              ++ [r])
            (idx + 2) upd (ins ++ [r.usDomainId]) := by
        simp [processRows, noFault, hrc]
      obtain ⟨h1, h2, h3, h4⟩ :=
        ih (applyUpdateStmt r.usDomainId r.associateName r.supervisorName t
              ++ [r])
          (idx + 2) upd (ins ++ [r.usDomainId]) hnd'
      have hkeys :
          keysOf (applyUpdateStmt r.usDomainId r.associateName r.supervisorName t
              ++ [r]) = keysOf t ++ [r.usDomainId] := by
        rw [keysOf_append, keysOf_applyUpdateStmt]; rfl
      rw [hkeys] at h2 h3 h4
      have hfin : (keysOf rest).filter
            (fun x => decide (x ∈ keysOf t ++ [r.usDomainId])) =
          (keysOf rest).filter (fun x => decide (x ∈ keysOf t)) := by
        refine List.filter_congr ?_
        intro x hx
        have hne : x ≠ r.usDomainId := fun h => hknot (h ▸ hx)
        simp [List.mem_append, hne]
      have hfout : (keysOf rest).filter
            (fun x => decide (¬ x ∈ keysOf t ++ [r.usDomainId])) =
          (keysOf rest).filter (fun x => decide (¬ x ∈ keysOf t)) := by
        refine List.filter_congr ?_
        intro x hx
        have hne : x ≠ r.usDomainId := fun h => hknot (h ▸ hx)
        simp [List.mem_append, hne]
      refine ⟨by rw [step]; exact h1, ?_, ?_, ?_⟩
      · rw [step, h2, hfin, keysOf_cons, List.filter_cons_of_neg (by simpa using hmem)]
      · rw [step, h3, hfout, keysOf_cons, List.filter_cons_of_pos (by simpa using hmem),
          List.append_assoc, List.singleton_append]
      · rw [step, h4, hfout, keysOf_cons, List.filter_cons_of_pos (by simpa using hmem),
          List.append_assoc, List.singleton_append]

/-- Fault-free loop, no uniqueness assumed: it never errors, keys already
in the table survive the loop, and every snapshot key is in the table once
the loop is done. -/
theorem processRows_noFault_cover (data : List SupRow) :
    ∀ (t : List SupRow) (idx : Nat) (upd ins : List String),
      (processRows noFault data t idx upd ins).err = none ∧
      (∀ k, k ∈ keysOf t →
        k ∈ keysOf (processRows noFault data t idx upd ins).table) ∧
      (∀ r, r ∈ data →
        r.usDomainId ∈ keysOf (processRows noFault data t idx upd ins).table) := by
  induction data with
  | nil => intro t idx upd ins; simp [processRows]
  | cons r rest ih =>
    intro t idx upd ins
    by_cases hmem : r.usDomainId ∈ keysOf t
    · have hrc : 0 < updateRowcount r.usDomainId t :=
        (updateRowcount_pos_iff _ _).2 hmem
      have step : processRows noFault (r :: rest) t idx upd ins =
          processRows noFault rest
            (applyUpdateStmt r.usDomainId r.associateName r.supervisorName t)
            (idx + 1) (upd ++ [r.usDomainId]) ins := by
        simp [processRows, noFault, hrc]
      obtain ⟨h1, h2, h3⟩ :=
        ih (applyUpdateStmt r.usDomainId r.associateName r.supervisorName t)
          (idx + 1) (upd ++ [r.usDomainId]) ins
      rw [keysOf_applyUpdateStmt] at h2
      refine ⟨by rw [step]; exact h1, fun k hk => by rw [step]; exact h2 k hk, ?_⟩
      intro r' hr'
      rw [step]
      rcases List.mem_cons.1 hr' with h | h
      · subst h; exact h2 _ hmem
      · exact h3 _ h
    · have hrc : ¬ 0 < updateRowcount r.usDomainId t := by
        rw [updateRowcount_pos_iff]; exact hmem
      have step : processRows noFault (r :: rest) t idx upd ins =
          processRows noFault rest
            (applyUpdateStmt r.usDomainId r.associateName r.supervisorName t
              ++ [r])
            (idx + 2) upd (ins ++ [r.usDomainId]) := by
        simp [processRows, noFault, hrc]
      obtain ⟨h1, h2, h3⟩ :=
        ih (applyUpdateStmt r.usDomainId r.associateName r.supervisorName t
              ++ [r])
          (idx + 2) upd (ins ++ [r.usDomainId])
      have hkeys :
          keysOf (applyUpdateStmt r.usDomainId r.associateName r.supervisorName t
              ++ [r]) = keysOf t ++ [r.usDomainId] := by
        rw [keysOf_append, keysOf_applyUpdateStmt]; rfl
      rw [hkeys] at h2
      refine ⟨by rw [step]; exact h1, ?_, ?_⟩
      · intro k hk
        rw [step]
        exact h2 k (List.mem_append.2 (Or.inl hk))
      · intro r' hr'
        rw [step]
        rcases List.mem_cons.1 hr' with h | h
        · subst h
          exact h2 _ (List.mem_append.2 (Or.inr (List.mem_singleton.2 rfl)))
        · exact h3 _ h

/-- Fault-free loop when every snapshot key is already present: every row
reports as updated, nothing is inserted, and the key column is unchanged. -/
theorem processRows_noFault_allPresent (data : List SupRow) :
    ∀ (t : List SupRow) (idx : Nat) (upd ins : List String),
      (∀ r, r ∈ data → r.usDomainId ∈ keysOf t) →
      (processRows noFault data t idx upd ins).err = none ∧
      (processRows noFault data t idx upd ins).updatedKeys =
        upd ++ keysOf data ∧
      (processRows noFault data t idx upd ins).insertedKeys = ins ∧
      keysOf (processRows noFault data t idx upd ins).table = keysOf t := by
  induction data with
  | nil => intro t idx upd ins _; simp [processRows, keysOf]
  | cons r rest ih =>
    intro t idx upd ins hall
    have hmem : r.usDomainId ∈ keysOf t := hall r (List.mem_cons_self r rest)
    have hrc : 0 < updateRowcount r.usDomainId t :=
      (updateRowcount_pos_iff _ _).2 hmem
    have step : processRows noFault (r :: rest) t idx upd ins =
        processRows noFault rest
          (applyUpdateStmt r.usDomainId r.associateName r.supervisorName t)
          (idx + 1) (upd ++ [r.usDomainId]) ins := by
      simp [processRows, noFault, hrc]
    obtain ⟨h1, h2, h3, h4⟩ :=
      ih (applyUpdateStmt r.usDomainId r.associateName r.supervisorName t)
        (idx + 1) (upd ++ [r.usDomainId]) ins
        (by
          intro r' hr'
          rw [keysOf_applyUpdateStmt]
          exact hall r' (List.mem_cons_of_mem r hr'))
    rw [keysOf_applyUpdateStmt] at h4
    refine ⟨by rw [step]; exact h1, ?_, by rw [step]; exact h3,
      by rw [step]; exact h4⟩
    rw [step, h2, keysOf_cons, List.append_assoc, List.singleton_append]

/-- Under any fault oracle, the loop only ever appends to the two buckets,
adds at most one bucket entry per snapshot row, and every added entry is a
snapshot key. -/
theorem processRows_applied_bound (fault : Nat → Option String)
    (data : List SupRow) :
    ∀ (t : List SupRow) (idx : Nat) (upd ins : List String),
      ∃ u v,
        (processRows fault data t idx upd ins).updatedKeys = upd ++ u ∧
        (processRows fault data t idx upd ins).insertedKeys = ins ++ v ∧
        u.length + v.length ≤ data.length ∧
        (∀ k, k ∈ u ∨ k ∈ v → k ∈ keysOf data) := by
  induction data with
  | nil =>
    intro t idx upd ins
    exact ⟨[], [], by simp [processRows], by simp [processRows], by simp,
      by rintro k (h | h) <;> simp at h⟩
  | cons r rest ih =>
    intro t idx upd ins
    rcases hf : fault idx with _ | e
    · by_cases hrc : 0 < updateRowcount r.usDomainId t
      · have step : processRows fault (r :: rest) t idx upd ins =
            processRows fault rest
              (applyUpdateStmt r.usDomainId r.associateName r.supervisorName t)
              (idx + 1) (upd ++ [r.usDomainId]) ins := by
          simp [processRows, hf, hrc]
        obtain ⟨u, v, h1, h2, h3, h4⟩ :=
          ih (applyUpdateStmt r.usDomainId r.associateName r.supervisorName t)
            (idx + 1) (upd ++ [r.usDomainId]) ins
        refine ⟨r.usDomainId :: u, v, ?_, ?_, ?_, ?_⟩
        · rw [step, h1, List.append_assoc, List.singleton_append]
        · rw [step, h2]
        · simp only [List.length_cons]; omega
        · rintro k (hk | hk)
          · rcases List.mem_cons.1 hk with h | h
            · subst h; exact List.mem_cons_self _ _
            · exact List.mem_cons_of_mem _ (h4 k (Or.inl h))
          · exact List.mem_cons_of_mem _ (h4 k (Or.inr hk))
      · rcases hf2 : fault (idx + 1) with _ | e
        · have step : processRows fault (r :: rest) t idx upd ins =
              processRows fault rest
                (applyUpdateStmt r.usDomainId r.associateName r.supervisorName t
                  ++ [r])
                (idx + 2) upd (ins ++ [r.usDomainId]) := by
            simp [processRows, hf, hrc, hf2]
          obtain ⟨u, v, h1, h2, h3, h4⟩ :=
            ih (applyUpdateStmt r.usDomainId r.associateName r.supervisorName t
                  ++ [r])
              (idx + 2) upd (ins ++ [r.usDomainId])
          refine ⟨u, r.usDomainId :: v, ?_, ?_, ?_, ?_⟩
          · rw [step, h1]
          · rw [step, h2, List.append_assoc, List.singleton_append]
          · simp only [List.length_cons]; omega
          · rintro k (hk | hk)
            · exact List.mem_cons_of_mem _ (h4 k (Or.inl hk))
            · rcases List.mem_cons.1 hk with h | h
              · subst h; exact List.mem_cons_self _ _
              · exact List.mem_cons_of_mem _ (h4 k (Or.inr h))
        · refine ⟨[], [], ?_, ?_, by simp, by rintro k (h | h) <;> simp at h⟩
          · simp only [processRows, hf, if_neg hrc, hf2]
            simp
          · simp only [processRows, hf, if_neg hrc, hf2]
            simp
    · refine ⟨[], [], ?_, ?_, by simp, by rintro k (h | h) <;> simp at h⟩
      · simp [processRows, hf]
      · simp [processRows, hf]

/-- The loop consults the fault oracle only at statement indices `≥ idx`:
two oracles that agree from `idx` on drive it identically. -/
theorem processRows_congr (fault fault2 : Nat → Option String)
    (data : List SupRow) :
    ∀ (t : List SupRow) (idx : Nat) (upd ins : List String),
      (∀ n, idx ≤ n → fault n = fault2 n) →
      processRows fault data t idx upd ins =
        processRows fault2 data t idx upd ins := by
  induction data with
  | nil => intro t idx upd ins _; simp [processRows]
  | cons r rest ih =>
    intro t idx upd ins hagree
    have h0 : fault idx = fault2 idx := hagree idx (Nat.le_refl idx)
    have h1 : fault (idx + 1) = fault2 (idx + 1) :=
      hagree (idx + 1) (Nat.le_succ idx)
    have hrest1 : ∀ n, idx + 1 ≤ n → fault n = fault2 n := fun n hn =>
      hagree n (Nat.le_trans (Nat.le_succ idx) hn)
    have hrest2 : ∀ n, idx + 2 ≤ n → fault n = fault2 n := fun n hn =>
      hagree n (Nat.le_trans (Nat.le_trans (Nat.le_succ idx)
        (Nat.le_succ (idx + 1))) hn)
    simp only [processRows, ← h0, ← h1]
    rcases fault idx with _ | e
    · simp only
      by_cases hrc : 0 < updateRowcount r.usDomainId t
      · simp only [if_pos hrc]
        exact ih _ (idx + 1) _ _ hrest1
      · simp only [if_neg hrc]
        rcases fault (idx + 1) with _ | e2
        · simp only
          exact ih _ (idx + 2) _ _ hrest2
        · rfl
    · rfl

/-- The statement counter never decreases across the loop. -/
theorem processRows_idx_le (fault : Nat → Option String) (data : List SupRow) :
    ∀ (t : List SupRow) (idx : Nat) (upd ins : List String),
      idx ≤ (processRows fault data t idx upd ins).idx := by
  induction data with
  | nil => intro t idx upd ins; simp [processRows]
  | cons r rest ih =>
    intro t idx upd ins
    simp only [processRows]
    rcases fault idx with _ | e
    · simp only
      by_cases hrc : 0 < updateRowcount r.usDomainId t
      · simp only [if_pos hrc]
        exact Nat.le_trans (Nat.le_succ idx) (ih _ (idx + 1) _ _)
      · simp only [if_neg hrc]
        rcases fault (idx + 1) with _ | e2
        · simp only
          exact Nat.le_trans (Nat.le_trans (Nat.le_succ idx)
            (Nat.le_succ (idx + 1))) (ih _ (idx + 2) _ _)
        · exact Nat.le_succ idx
    · exact Nat.le_refl idx

/-- Key column of a filtered table: filtering rows by a property of their
key and then projecting the key column is filtering the key column. -/
theorem keysOf_filter (p : String → Bool) (t : List SupRow) :
    keysOf (t.filter fun r => p r.usDomainId) = (keysOf t).filter p := by
  induction t with
  | nil => rfl
  | cons r rest ih =>
      simp only [keysOf, List.map_cons] at ih ⊢
      by_cases h : p r.usDomainId
      · simp [List.filter_cons, h, ih]
      · simp [List.filter_cons, h, ih]

/-- A fault-free `update_table` run in terms of the loop: the backup holds
a copy of the initial production table, the delete pass runs and removes
exactly the post-loop rows whose key is not a snapshot key, and no error
is logged. -/
theorem update_table_noFault_eq (data prod0 backup0 : List SupRow) :
    update_table data prod0 backup0 noFault =
      { prod := (processRows noFault data prod0 2 [] []).table.filter
          (fun r => r.usDomainId ∈ keysOf data),
        backup := prod0,
        updatedKeys := (processRows noFault data prod0 2 [] []).updatedKeys,
        insertedKeys := (processRows noFault data prod0 2 [] []).insertedKeys,
        deletedKeys := ((processRows noFault data prod0 2 [] []).table.filter
          (fun r => ¬ r.usDomainId ∈ keysOf data)).map (·.usDomainId),
        deletePassRan := true,
        backupErrorLog := none,
        topErrorLog := none } := by
  have herr := (processRows_noFault_cover data prod0 2 [] []).1
  simp only [update_table, noFault, herr, keysOf, List.nil_append]

/-! ## Claim C1: update-then-conditional-insert and diff correctness -/

/-- C1.  In a fault-free reconciliation run over a snapshot with unique
keys, each row first gets an UPDATE filtered by its key and an INSERT of
the full row exactly when that UPDATE matched zero rows; consequently the
inserted bucket is the snapshot keys absent from the initial table, the
updated bucket the snapshot keys present in it (both in snapshot order),
and the delete pass removes exactly the initial keys absent from the
snapshot. -/
theorem c1_update_then_insert_diff (data prod0 backup0 : List SupRow)
    (hnd : (keysOf data).Nodup) :
    (update_table data prod0 backup0 noFault).insertedKeys =
      (keysOf data).filter (· ∉ keysOf prod0) ∧
    (update_table data prod0 backup0 noFault).updatedKeys =
      (keysOf data).filter (· ∈ keysOf prod0) ∧
    (update_table data prod0 backup0 noFault).deletedKeys =
      (keysOf prod0).filter (· ∉ keysOf data) := by
  rw [update_table_noFault_eq]
  obtain ⟨-, h2, h3, h4⟩ := processRows_noFault_spec data prod0 2 [] [] hnd
  refine ⟨by simpa using h3, by simpa using h2, ?_⟩
  have hnil : ((keysOf data).filter (fun k => decide (¬ k ∈ keysOf prod0))).filter
      (fun k => decide (¬ k ∈ keysOf data)) = [] := by
    rw [List.filter_eq_nil_iff]
    intro x hx
    have hmem := List.mem_of_mem_filter hx
    simp [hmem]
  show ((processRows noFault data prod0 2 [] []).table.filter
      (fun r => ¬ r.usDomainId ∈ keysOf data)).map (·.usDomainId) = _
  rw [show ((processRows noFault data prod0 2 [] []).table.filter
        (fun r => ¬ r.usDomainId ∈ keysOf data)).map (·.usDomainId) =
      keysOf ((processRows noFault data prod0 2 [] []).table.filter
        (fun r => decide (¬ r.usDomainId ∈ keysOf data))) from rfl,
    keysOf_filter (fun k => decide (¬ k ∈ keysOf data)), h4,
    List.filter_append, hnil, List.append_nil]

def wrA : SupRow := ⟨"A", "alice", "sup1"⟩
def wrB : SupRow := ⟨"B", "bob", "sup1"⟩
def wrC : SupRow := ⟨"C", "carol", "sup2"⟩
def woldB : SupRow := ⟨"B", "bob-old", "sup0"⟩
def woldC : SupRow := ⟨"C", "carol-old", "sup0"⟩
def woldD : SupRow := ⟨"D", "dave", "sup0"⟩

/-- C1 witness: snapshot keys `{A, B, C}` against table keys `{B, C, D}`
yields insert `[A]`, update `[B, C]`, delete `[D]`. -/
theorem c1_witness :
    (keysOf [wrA, wrB, wrC]).Nodup ∧
    (update_table [wrA, wrB, wrC] [woldB, woldC, woldD] [] noFault).insertedKeys
      = ["A"] ∧
    (update_table [wrA, wrB, wrC] [woldB, woldC, woldD] [] noFault).updatedKeys
      = ["B", "C"] ∧
    (update_table [wrA, wrB, wrC] [woldB, woldC, woldD] [] noFault).deletedKeys
      = ["D"] := by
  have h := c1_update_then_insert_diff [wrA, wrB, wrC] [woldB, woldC, woldD] []
    (by decide)
  exact ⟨by decide, h.1.trans (by decide), h.2.1.trans (by decide),
    h.2.2.trans (by decide)⟩

/-! ## Claim C2: single delete pass, strictly after the loop -/

/-- C2.  A fault-free reconciliation run performs its one delete pass
(after every per-row update/insert: the pass filters the table the loop
produced), removes only keys outside the snapshot's full key set, leaves
every snapshot key present in the final table - so a key present in the
snapshot is never deleted, even if it was inserted by this same run - and
leaves no key outside the snapshot in the final table. -/
theorem c2_delete_pass_exact (data prod0 backup0 : List SupRow) :
    (update_table data prod0 backup0 noFault).deletePassRan = true ∧
    (update_table data prod0 backup0 noFault).topErrorLog = none ∧
    (∀ k, k ∈ (update_table data prod0 backup0 noFault).deletedKeys →
      ¬ k ∈ keysOf data) ∧
    (∀ r, r ∈ data →
      r.usDomainId ∈ keysOf (update_table data prod0 backup0 noFault).prod) ∧
    (∀ r, r ∈ (update_table data prod0 backup0 noFault).prod →
      r.usDomainId ∈ keysOf data) := by
  rw [update_table_noFault_eq]
  obtain ⟨-, -, hcov⟩ := processRows_noFault_cover data prod0 2 [] []
  refine ⟨rfl, rfl, ?_, ?_, ?_⟩
  · intro k hk
    simp only [List.mem_map, List.mem_filter] at hk
    obtain ⟨r, ⟨-, hr⟩, hkey⟩ := hk
    subst hkey
    simpa using hr
  · intro r hr
    have hmem := hcov r hr
    simp only [keysOf, List.mem_map] at hmem ⊢
    obtain ⟨r', hr', hkey⟩ := hmem
    refine ⟨r', List.mem_filter.2 ⟨hr', ?_⟩, hkey⟩
    rw [hkey]
    simp only [decide_eq_true_eq, keysOf, List.mem_map]
    exact ⟨r, hr, rfl⟩
  · intro r hr
    have := (List.mem_filter.1 hr).2
    simpa [keysOf] using this

/-- C2 witness: in the `{A, B, C}` versus `{B, C, D}` run the delete pass
ran, the snapshot key `A` (freshly inserted in the same run) survives in
the final table, and the deleted key `D` is not a snapshot key. -/
theorem c2_witness :
    (update_table [wrA, wrB, wrC] [woldB, woldC, woldD] [] noFault).deletePassRan
      = true ∧
    "A" ∈ keysOf (update_table [wrA, wrB, wrC] [woldB, woldC, woldD] []
      noFault).prod ∧
    ¬ "D" ∈ keysOf [wrA, wrB, wrC] := by
  have h := c2_delete_pass_exact [wrA, wrB, wrC] [woldB, woldC, woldD] []
  exact ⟨h.1, h.2.2.2.1 wrA (by decide), by decide⟩

/-! ## Claim C5: backup failure handling -/

/-- C5 counterexample.  With the backup-copy statement failing (`fault`
hits statement 1 only), `backup_table`'s own handler logs the failure and
returns normally: the run raises nothing to its caller, proceeds with the
whole reconciliation - including the delete pass - and leaves the backup
table empty.  The claim that a clear/copy failure produces a propagated
`BackupError` (never swallowed) is false on the code. -/
theorem c5_counterexample :
    (update_table [wrA] [woldB] [woldD] (failOnly 1 "disk full")).backupErrorLog
      = some "An error occurred during backup: disk full" ∧
    (update_table [wrA] [woldB] [woldD] (failOnly 1 "disk full")).topErrorLog
      = none ∧
    (update_table [wrA] [woldB] [woldD] (failOnly 1 "disk full")).deletePassRan
      = true ∧
    (update_table [wrA] [woldB] [woldD] (failOnly 1 "disk full")).insertedKeys
      = ["A"] ∧
    (update_table [wrA] [woldB] [woldD] (failOnly 1 "disk full")).deletedKeys
      = ["B"] ∧
    (update_table [wrA] [woldB] [woldD] (failOnly 1 "disk full")).backup
      = [] := by
  refine ⟨rfl, rfl, rfl, rfl, rfl, rfl⟩

/-- C5 amended.  A failure of the backup-clear statement (statement 0,
issued directly by `update_table`) aborts the run before any mutation and
is caught and logged by the top-level handler; a failure of the
backup-copy statement (statement 1, inside `backup_table`) is caught and
logged inside `backup_table`, which returns normally, and the run proceeds
with reconciliation exactly as a fault-free run - the backup failure is
recorded only in the log, never raised to the caller. -/
theorem c5_amended (data prod0 backup0 : List SupRow) (e : String) :
    update_table data prod0 backup0 (failOnly 0 e) =
      { prod := prod0, backup := backup0, updatedKeys := [],
        insertedKeys := [], deletedKeys := [], deletePassRan := false,
        backupErrorLog := none,
        topErrorLog := some ("An error occurred: " ++ e) } ∧
    update_table data prod0 backup0 (failOnly 1 e) =
      { update_table data prod0 backup0 noFault with
          backup := [],
          backupErrorLog := some ("An error occurred during backup: " ++ e) } := by
  constructor
  · simp [update_table, failOnly]
  · have hcongr : processRows (failOnly 1 e) data prod0 2 [] [] =
        processRows noFault data prod0 2 [] [] := by
      refine processRows_congr _ _ data prod0 2 [] [] ?_
      intro n hn
      have hne : n ≠ 1 := by omega
      simp [failOnly, noFault, hne]
    have herr := (processRows_noFault_cover data prod0 2 [] []).1
    have hidx := processRows_idx_le noFault data prod0 2 [] []
    have hidxne : (processRows noFault data prod0 2 [] []).idx ≠ 1 := by omega
    rw [update_table_noFault_eq]
    simp only [update_table, failOnly, if_neg (by omega : (0 : Nat) ≠ 1),
      if_pos rfl, hcongr, herr, if_neg hidxne, List.nil_append, keysOf,
      if_true, eq_self_iff_true]

/-! ## Claim C6: second-run behaviour -/

/-- After a fault-free run, the final table's key set lies between the
snapshot and itself: every snapshot key is present and every present key
is a snapshot key. -/
theorem update_table_noFault_prod_keys (data prod0 backup0 : List SupRow) :
    (∀ r, r ∈ data →
      r.usDomainId ∈ keysOf (update_table data prod0 backup0 noFault).prod) ∧
    (∀ r, r ∈ (update_table data prod0 backup0 noFault).prod →
      r.usDomainId ∈ keysOf data) := by
  rw [update_table_noFault_eq]
  obtain ⟨-, -, hcov⟩ := processRows_noFault_cover data prod0 2 [] []
  constructor
  · intro r hr
    have hmem := hcov r hr
    simp only [keysOf, List.mem_map] at hmem ⊢
    obtain ⟨r', hr', hkey⟩ := hmem
    refine ⟨r', List.mem_filter.2 ⟨hr', ?_⟩, hkey⟩
    rw [hkey]
    simp only [decide_eq_true_eq, keysOf, List.mem_map]
    exact ⟨r, hr, rfl⟩
  · intro r hr
    have := (List.mem_filter.1 hr).2
    simpa [keysOf] using this

/-- C6 counterexample.  Reconciling the one-row snapshot `[A]` against the
empty table and then reconciling the same snapshot against the resulting
table: the second run performs one UPDATE whose rowcount is positive, so
it reports one updated row - not the zero updates the claim asserts -
although it inserts and deletes nothing. -/
theorem c6_counterexample :
    (update_table [wrA] (update_table [wrA] [] [] noFault).prod [] noFault).updatedKeys
      = ["A"] ∧
    ¬ (update_table [wrA] (update_table [wrA] [] [] noFault).prod [] noFault).updatedKeys
      = [] ∧
    (update_table [wrA] (update_table [wrA] [] [] noFault).prod [] noFault).insertedKeys
      = [] ∧
    (update_table [wrA] (update_table [wrA] [] [] noFault).prod [] noFault).deletedKeys
      = [] := by
  refine ⟨rfl, by decide, rfl, rfl⟩

/-- C6 amended.  Reconciling the same snapshot twice in succession yields
zero inserts and zero deletes on the second run, but not zero updates:
every snapshot row is counted as updated on the second run (its UPDATE
matches the row the first run left behind). -/
theorem c6_second_run (data prod0 b0 b1 : List SupRow) :
    (update_table data (update_table data prod0 b0 noFault).prod b1
      noFault).insertedKeys = [] ∧
    (update_table data (update_table data prod0 b0 noFault).prod b1
      noFault).deletedKeys = [] ∧
    (update_table data (update_table data prod0 b0 noFault).prod b1
      noFault).updatedKeys = keysOf data := by
  obtain ⟨hp1, hp2⟩ := update_table_noFault_prod_keys data prod0 b0
  rw [update_table_noFault_eq]
  obtain ⟨-, h2, h3, h4⟩ := processRows_noFault_allPresent data
    (update_table data prod0 b0 noFault).prod 2 [] [] hp1
  refine ⟨by simpa using h3, ?_, by simpa using h2⟩
  show (((processRows noFault data (update_table data prod0 b0 noFault).prod
      2 [] []).table.filter
      (fun r => decide (¬ r.usDomainId ∈ keysOf data))).map (·.usDomainId)) = _
  rw [show (((processRows noFault data (update_table data prod0 b0
        noFault).prod 2 [] []).table.filter
        (fun r => decide (¬ r.usDomainId ∈ keysOf data))).map (·.usDomainId)) =
      keysOf ((processRows noFault data (update_table data prod0 b0
        noFault).prod 2 [] []).table.filter
        (fun r => decide (¬ r.usDomainId ∈ keysOf data))) from rfl,
    keysOf_filter (fun k => decide (¬ k ∈ keysOf data)), h4,
    List.filter_eq_nil_iff]
  intro x hx
  simp only [keysOf, List.mem_map] at hx
  obtain ⟨r, hr, hkey⟩ := hx
  subst hkey
  simpa using hp2 r hr

/-- C6 witness: the amended statement at the two-row snapshot `[A, B]`
against the initial table `[B-old]`: the second run inserts nothing,
deletes nothing, and reports both rows as updated. -/
theorem c6_witness :
    (update_table [wrA, wrB] (update_table [wrA, wrB] [woldB] [] noFault).prod
      [] noFault).insertedKeys = [] ∧
    (update_table [wrA, wrB] (update_table [wrA, wrB] [woldB] [] noFault).prod
      [] noFault).deletedKeys = [] ∧
    (update_table [wrA, wrB] (update_table [wrA, wrB] [woldB] [] noFault).prod
      [] noFault).updatedKeys = ["A", "B"] := by
  have h := c6_second_run [wrA, wrB] [woldB] [] []
  exact ⟨h.1, h.2.1, h.2.2.trans (by decide)⟩

/-! ## Claim C7: failure of a per-row statement -/

def wsnap5 : List SupRow :=
  [⟨"k1", "a", "s"⟩, ⟨"k2", "a", "s"⟩, ⟨"k3", "a", "s"⟩, ⟨"k4", "a", "s"⟩,
   ⟨"k5", "a", "s"⟩]

def wprod5 : List SupRow :=
  [⟨"k1", "x", "y"⟩, ⟨"k2", "x", "y"⟩, ⟨"k3", "x", "y"⟩, ⟨"k4", "x", "y"⟩,
   ⟨"k5", "x", "y"⟩]

/-- C7 counterexample.  All five snapshot keys are present in the table,
so the run issues one UPDATE per row at statements 2..6.  Failing the 3rd
row's statement (index 4) aborts after 2 rows were applied; failing the
1st row's statement (index 2) aborts after 0 rows were applied.  Both runs
produce the identical top-level error log entry - the bare exception
message - so the reported error carries neither the offending key nor the
count of rows already applied: it cannot report "exactly 2 rows applied",
as it is the same value when 0 rows were applied. -/
theorem c7_counterexample :
    (update_table wsnap5 wprod5 [] (failOnly 4 "boom")).updatedKeys.length +
      (update_table wsnap5 wprod5 [] (failOnly 4 "boom")).insertedKeys.length
      = 2 ∧
    (update_table wsnap5 wprod5 [] (failOnly 2 "boom")).updatedKeys.length +
      (update_table wsnap5 wprod5 [] (failOnly 2 "boom")).insertedKeys.length
      = 0 ∧
    (update_table wsnap5 wprod5 [] (failOnly 4 "boom")).topErrorLog
      = (update_table wsnap5 wprod5 [] (failOnly 2 "boom")).topErrorLog ∧
    (update_table wsnap5 wprod5 [] (failOnly 4 "boom")).topErrorLog
      = some "An error occurred: boom" := by
  refine ⟨rfl, rfl, rfl, rfl⟩

/-- C7 amended.  When any statement of the run fails, the remainder of the
run is aborted: the delete pass is never reached and nothing is deleted,
at most one bucket entry per snapshot row was recorded (each recorded key
being a snapshot key), and the only error surfaced is the top-level log
line "An error occurred: " followed by the underlying exception message -
no structured error carrying the offending key or the applied-row counts
is produced. -/
theorem c7_abort_on_failure (data prod0 backup0 : List SupRow)
    (fault : Nat → Option String) (m : String)
    (h : (update_table data prod0 backup0 fault).topErrorLog = some m) :
    (∃ e, m = "An error occurred: " ++ e) ∧
    (update_table data prod0 backup0 fault).deletePassRan = false ∧
    (update_table data prod0 backup0 fault).deletedKeys = [] ∧
    (update_table data prod0 backup0 fault).updatedKeys.length +
      (update_table data prod0 backup0 fault).insertedKeys.length
      ≤ data.length ∧
    (∀ k, k ∈ (update_table data prod0 backup0 fault).updatedKeys ∨
        k ∈ (update_table data prod0 backup0 fault).insertedKeys →
      k ∈ keysOf data) := by
  obtain ⟨u, v, hu, hv, hlen, hmem⟩ :=
    processRows_applied_bound fault data prod0 2 [] []
  simp only [List.nil_append] at hu hv
  rcases hf0 : fault 0 with _ | e0
  · rcases hserr : (processRows fault data prod0 2 [] []).err with _ | e1
    · rcases hfidx : fault (processRows fault data prod0 2 [] []).idx
        with _ | e2
      · exfalso
        simp only [update_table, hf0, hserr, hfidx] at h
        exact Option.noConfusion h
      · simp only [update_table, hf0, hserr, hfidx] at h ⊢
        refine ⟨⟨e2, (Option.some_injective _ h).symm⟩, by trivial, by trivial, ?_, ?_⟩
        · rw [hu, hv]; exact hlen
        · intro k hk
          rw [hu, hv] at hk
          exact hmem k hk
    · simp only [update_table, hf0, hserr] at h ⊢
      refine ⟨⟨e1, (Option.some_injective _ h).symm⟩, by trivial, by trivial, ?_, ?_⟩
      · rw [hu, hv]; exact hlen
      · intro k hk
        rw [hu, hv] at hk
        exact hmem k hk
  · simp only [update_table, hf0] at h ⊢
    refine ⟨⟨e0, (Option.some_injective _ h).symm⟩, by trivial, by trivial, ?_, ?_⟩
    · simp
    · rintro k (hk | hk) <;> simp at hk

/-- C7 witness: the amended statement applied to the run that fails on the
3rd of 5 rows: the error is the prefixed bare message, the delete pass did
not run, and exactly 2 rows were applied before the failure. -/
theorem c7_witness :
    (update_table wsnap5 wprod5 [] (failOnly 4 "boom")).topErrorLog
      = some "An error occurred: boom" ∧
    (update_table wsnap5 wprod5 [] (failOnly 4 "boom")).deletePassRan = false ∧
    (update_table wsnap5 wprod5 [] (failOnly 4 "boom")).updatedKeys.length +
      (update_table wsnap5 wprod5 [] (failOnly 4 "boom")).insertedKeys.length
      ≤ 5 := by
  have h := c7_abort_on_failure wsnap5 wprod5 [] (failOnly 4 "boom")
    "An error occurred: boom" rfl
  exact ⟨rfl, h.2.1, h.2.2.2.1⟩

/-- C5 witness: the amended statement at a concrete run - the clear
failure aborts with the logged top-level error, and the copy failure
leaves the fault-free reconciliation outcome intact apart from the empty
backup and its log line. -/
theorem c5_witness :
    (update_table [wrA] [woldB] [woldD] (failOnly 0 "down")).topErrorLog
      = some "An error occurred: down" ∧
    (update_table [wrA] [woldB] [woldD] (failOnly 1 "down")).backupErrorLog
      = some "An error occurred during backup: down" := by
  have h := c5_amended [wrA] [woldB] [woldD] "down"
  exact ⟨by rw [h.1]; rfl, by rw [h.2]; rfl⟩

/-! ## Lemmas about the batch loader -/

theorem chunkStarts_zero (bs : Nat) : chunkStarts 0 bs = [] := by
  rcases Nat.eq_zero_or_pos bs with h | h
  · subst h; simp [chunkStarts]
  · unfold chunkStarts
    rw [Nat.zero_add, Nat.div_eq_of_lt (by omega), List.range_zero,
      List.map_nil]

theorem pyChunks_nil {α : Type} (bs : Nat) : pyChunks ([] : List α) bs = [] := by
  simp [pyChunks, chunkStarts_zero]

/-- Number of chunks of a nonempty row set: one chunk of (up to) `bs`
rows, then the chunks of the rest. -/
theorem numChunks_succ (bs n : Nat) (hbs : 0 < bs) (hn : 0 < n) :
    (n + bs - 1) / bs = ((n - bs) + bs - 1) / bs + 1 := by
  rcases le_or_lt bs n with h | h
  · have h1 : n + bs - 1 = (n - bs + bs - 1) + bs := by omega
    rw [h1, Nat.add_div_right _ hbs]
  · have h1 : n - bs = 0 := by omega
    have h2 : n + bs - 1 = (n - 1) + bs := by omega
    rw [h1, h2, Nat.add_div_right _ hbs, Nat.zero_add,
      Nat.div_eq_of_lt (show n - 1 < bs by omega),
      Nat.div_eq_of_lt (show bs - 1 < bs by omega)]

/-- Peeling the first chunk off `[data[s:s+bs] for s in range(0, len, bs)]`. -/
theorem pyChunks_cons {α : Type} (bs : Nat) (hbs : 0 < bs) (data : List α)
    (hne : data ≠ []) :
    pyChunks data bs = data.take bs :: pyChunks (data.drop bs) bs := by
  have hn : 0 < data.length := List.length_pos.2 hne
  unfold pyChunks chunkStarts
  rw [List.length_drop, numChunks_succ bs data.length hbs hn,
    List.range_succ_eq_map]
  simp only [List.map_cons, List.map_map, Nat.zero_mul, List.drop_zero]
  refine congrArg (data.take bs :: ·) ?_
  refine List.map_congr_left ?_
  intro i hi
  simp only [Function.comp_apply]
  rw [List.drop_drop]
  congr 2
  rw [Nat.succ_mul, Nat.add_comm]

/-- The chunks are consecutive: concatenated they give back the row set. -/
theorem pyChunks_flatten {α : Type} (bs : Nat) (hbs : 0 < bs) :
    ∀ (data : List α), (pyChunks data bs).flatten = data := by
  suffices h : ∀ (n : Nat) (data : List α), data.length ≤ n →
      (pyChunks data bs).flatten = data from
    fun data => h data.length data (Nat.le_refl _)
  intro n
  induction n with
  | zero =>
    intro data hlen
    have : data = [] := List.eq_nil_of_length_eq_zero (by omega)
    subst this
    simp [pyChunks_nil]
  | succ n ih =>
    intro data hlen
    rcases eq_or_ne data [] with rfl | hne
    · simp [pyChunks_nil]
    · rw [pyChunks_cons bs hbs data hne, List.flatten_cons,
        ih (data.drop bs) (by rw [List.length_drop]; omega),
        List.take_append_drop]

/-- Every chunk holds at most `bs` rows. -/
theorem pyChunks_le {α : Type} (bs : Nat) (data : List α) :
    ∀ c, c ∈ pyChunks data bs → c.length ≤ bs := by
  intro c hc
  obtain ⟨s, -, hs⟩ := List.mem_map.1 hc
  subst hs
  simp [List.length_take]

/-- Every chunk except possibly the last holds exactly `bs` rows. -/
theorem pyChunks_dropLast_full {α : Type} (bs : Nat) (hbs : 0 < bs) :
    ∀ (data : List α) (c : List α), c ∈ (pyChunks data bs).dropLast →
      c.length = bs := by
  suffices h : ∀ (n : Nat) (data : List α), data.length ≤ n →
      ∀ c, c ∈ (pyChunks data bs).dropLast → c.length = bs from
    fun data => h data.length data (Nat.le_refl _)
  intro n
  induction n with
  | zero =>
    intro data hlen c hc
    have : data = [] := List.eq_nil_of_length_eq_zero (by omega)
    subst this
    simp [pyChunks_nil] at hc
  | succ n ih =>
    intro data hlen c hc
    rcases eq_or_ne data [] with rfl | hne
    · simp [pyChunks_nil] at hc
    · rw [pyChunks_cons bs hbs data hne] at hc
      rcases hrest : pyChunks (data.drop bs) bs with _ | ⟨c2, cs⟩
      · rw [hrest] at hc
        simp at hc
      · rw [hrest, List.dropLast_cons₂] at hc
        have hdropne : data.drop bs ≠ [] := by
          intro hd
          rw [hd, pyChunks_nil] at hrest
          exact List.noConfusion hrest
        have hblt : bs < data.length := by
          have := List.length_pos.2 hdropne
          rw [List.length_drop] at this
          omega
        rcases List.mem_cons.1 hc with h | h
        · subst h
          rw [List.length_take]
          omega
        · rw [← hrest] at h
          exact ih (data.drop bs) (by rw [List.length_drop]; omega) c h

/-- The fault-free chunk loop executes one statement per chunk start, in
order, and reports the running total after each. -/
theorem runChunks_noFault {α : Type} (data : List α) (bs : Nat) :
    ∀ (starts : List Nat) (idx acc : Nat),
      runChunks noFault data bs starts idx acc =
        { sent := starts.map fun s => (data.drop s).take bs,
          progress := cumSums acc (starts.map fun s => (data.drop s).take bs),
          raised := none } := by
  intro starts
  induction starts with
  | nil => intro idx acc; rfl
  | cons s rest ih =>
    intro idx acc
    simp [runChunks, noFault, ih, cumSums]

/-- Chunk loop under a fault oracle whose first failure is at chunk `k`
(within range): the failing chunk's statement is never executed or
retried, the statements of the `k` prior chunks were executed in order,
and the underlying message `e` is what propagates. -/
theorem runChunks_fault {α : Type} (data : List α) (bs : Nat)
    (fault : Nat → Option String) (e : String) :
    ∀ (starts : List Nat) (k idx acc : Nat),
      k < starts.length →
      (∀ j, j < k → fault (idx + j) = none) →
      fault (idx + k) = some e →
      (runChunks fault data bs starts idx acc).raised = some e ∧
      (runChunks fault data bs starts idx acc).sent =
        (starts.take k).map (fun s => (data.drop s).take bs) ∧
      (runChunks fault data bs starts idx acc).progress.length = k := by
  intro starts
  induction starts with
  | nil =>
    intro k idx acc hk
    exact absurd hk (by simp)
  | cons s rest ih =>
    intro k idx acc hk hnone hfk
    cases k with
    | zero =>
      have h0 : fault idx = some e := by simpa using hfk
      refine ⟨?_, ?_, ?_⟩ <;> simp [runChunks, h0]
    | succ k2 =>
      have h0 : fault idx = none := by simpa using hnone 0 (Nat.succ_pos k2)
      have hrec := ih k2 (idx + 1) (acc + ((data.drop s).take bs).length)
        (by simpa using hk)
        (by
          intro j hj
          have := hnone (j + 1) (by omega)
          simpa [Nat.add_assoc, Nat.add_comm 1 j] using this)
        (by
          have : idx + (k2 + 1) = idx + 1 + k2 := by omega
          rw [← this]
          exact hfk)
      simp only [List.length_take, List.length_drop] at hrec
      refine ⟨?_, ?_, ?_⟩ <;>
        simp [runChunks, h0, hrec.1, hrec.2.1, hrec.2.2, List.take_cons,
          List.length_take, List.map_take]

/-! ## Claim C8: batch chunking -/

/-- C8.  For every row set and positive batch size, the fault-free load
raises nothing, executes exactly the consecutive chunks
`[rows[s:s+bs] for s in range(0, len(rows), bs)]` strictly in sequence -
concatenating them gives back the row set - with every chunk at most
`bs` rows, every chunk but the last exactly `bs` rows, and the progress
reported after each chunk is the running cumulative row count. -/
theorem c8_batch_chunking {α : Type} (rows : List α) (tableName : String)
    (bs : Int) (hbs : 0 < bs) :
    (insert_data_to_sql rows tableName bs noFault).raised = none ∧
    (insert_data_to_sql rows tableName bs noFault).sent =
      pyChunks rows bs.toNat ∧
    (insert_data_to_sql rows tableName bs noFault).sent.flatten = rows ∧
    (∀ c, c ∈ (insert_data_to_sql rows tableName bs noFault).sent →
      c.length ≤ bs.toNat) ∧
    (∀ c, c ∈ (insert_data_to_sql rows tableName bs noFault).sent.dropLast →
      c.length = bs.toNat) ∧
    (insert_data_to_sql rows tableName bs noFault).progress =
      cumSums 0 (insert_data_to_sql rows tableName bs noFault).sent := by
  have hbs0 : 0 < bs.toNat := by omega
  have heq : insert_data_to_sql rows tableName bs noFault =
      { sent := pyChunks rows bs.toNat,
        progress := cumSums 0 (pyChunks rows bs.toNat),
        raised := none } := by
    unfold insert_data_to_sql
    rw [if_neg (by omega), if_neg (by omega), runChunks_noFault]
    rfl
  rw [heq]
  exact ⟨rfl, rfl, pyChunks_flatten bs.toNat hbs0 rows,
    pyChunks_le bs.toNat rows, pyChunks_dropLast_full bs.toNat hbs0 rows, rfl⟩

/-- C8 witness: 5 rows with batch size 2 yield the three chunks
`[[1,2],[3,4],[5]]` of sizes `[2,2,1]`, with cumulative progress
`[2,4,5]` and no error. -/
theorem c8_witness :
    (0 : Int) < 2 ∧
    (insert_data_to_sql [1, 2, 3, 4, 5] "t" 2 noFault).sent
      = [[1, 2], [3, 4], [5]] ∧
    (insert_data_to_sql [1, 2, 3, 4, 5] "t" 2 noFault).sent.map List.length
      = [2, 2, 1] ∧
    (insert_data_to_sql [1, 2, 3, 4, 5] "t" 2 noFault).progress = [2, 4, 5] ∧
    (insert_data_to_sql [1, 2, 3, 4, 5] "t" 2 noFault).raised = none := by
  have h := c8_batch_chunking [1, 2, 3, 4, 5] "t" 2 (by decide)
  exact ⟨by decide, by decide, by decide, by decide, h.1⟩

/-! ## Claim C9: chunk failure -/

/-- C9 counterexample.  Failing chunk 0 and failing chunk 2 (same
underlying message) propagate the identical error value - the bare
message, carrying neither the failing chunk's index nor the count of
rows already committed - even though 0 rows were committed in the first
run and 4 in the second. -/
theorem c9_counterexample :
    (insert_data_to_sql [1, 2, 3, 4, 5] "t" 2 (failOnly 0 "db down")).raised
      = (insert_data_to_sql [1, 2, 3, 4, 5] "t" 2 (failOnly 2 "db down")).raised ∧
    (insert_data_to_sql [1, 2, 3, 4, 5] "t" 2 (failOnly 0 "db down")).sent = [] ∧
    (insert_data_to_sql [1, 2, 3, 4, 5] "t" 2 (failOnly 2 "db down")).sent
      = [[1, 2], [3, 4]] ∧
    (insert_data_to_sql [1, 2, 3, 4, 5] "t" 2 (failOnly 0 "db down")).raised
      = some "db down" := by
  refine ⟨rfl, rfl, rfl, rfl⟩

/-- C9 amended.  When the statement of chunk `k` fails (all earlier chunks
succeeding), the load aborts immediately: exactly the `k` prior chunks
were executed, in order, the failed chunk is never executed again, and
what propagates is the underlying database error message unchanged -
carrying no chunk index and no committed-row count. -/
theorem c9_abort_on_chunk_failure {α : Type} (rows : List α)
    (tableName : String) (bs : Int) (fault : Nat → Option String) (k : Nat)
    (e : String) (hbs : 0 < bs) (hk : k < (pyChunks rows bs.toNat).length)
    (hnone : ∀ j, j < k → fault j = none) (hfk : fault k = some e) :
    (insert_data_to_sql rows tableName bs fault).raised = some e ∧
    (insert_data_to_sql rows tableName bs fault).sent =
      (pyChunks rows bs.toNat).take k ∧
    (insert_data_to_sql rows tableName bs fault).progress.length = k := by
  have hk2 : k < (chunkStarts rows.length bs.toNat).length := by
    simpa [pyChunks] using hk
  have h := runChunks_fault rows bs.toNat fault e
    (chunkStarts rows.length bs.toNat) k 0 0 hk2
    (by intro j hj; simpa using hnone j hj) (by simpa using hfk)
  have heq : insert_data_to_sql rows tableName bs fault =
      runChunks fault rows bs.toNat (chunkStarts rows.length bs.toNat) 0 0 := by
    unfold insert_data_to_sql
    rw [if_neg (by omega), if_neg (by omega)]
  rw [heq]
  refine ⟨h.1, ?_, h.2.2⟩
  rw [h.2.1, pyChunks, List.map_take]

/-- C9 witness: the amended statement at 5 rows, batch size 2, chunk 1
failing: chunk 0 (2 rows) was committed, the error propagated is the bare
message. -/
theorem c9_witness :
    (insert_data_to_sql [1, 2, 3, 4, 5] "t" 2 (failOnly 1 "db down")).raised
      = some "db down" ∧
    (insert_data_to_sql [1, 2, 3, 4, 5] "t" 2 (failOnly 1 "db down")).sent
      = [[1, 2]] ∧
    (insert_data_to_sql [1, 2, 3, 4, 5] "t" 2 (failOnly 1 "db down")).progress.length
      = 1 := by
  have h := c9_abort_on_chunk_failure [1, 2, 3, 4, 5] "t" 2
    (failOnly 1 "db down") 1 "db down" (by decide) (by decide)
    (by intro j hj; interval_cases j <;> rfl) rfl
  exact ⟨h.1, h.2.1.trans (by decide), h.2.2⟩

/-! ## Claim C10: empty row set -/

/-- C10 counterexample.  With an empty row set and batch size 0 the
loader does not succeed: `range(0, 0, 0)` raises
`ValueError: range() arg 3 must not be zero`, which the
`except SQLAlchemyError` handler does not catch - so "succeeding without
error for every batch size" is false. -/
theorem c10_counterexample :
    (insert_data_to_sql ([] : List Nat) "t" 0 noFault).raised
      = some "range() arg 3 must not be zero" := rfl

/-- C10 amended.  For an empty row set and any nonzero batch size
(positive or negative) the chunk-start range is empty, so the loader
executes zero insert statements, reports no progress (the cumulative
count stays 0), and raises nothing - under any fault oracle and for
every table name. -/
theorem c10_empty_rows {α : Type} (tableName : String) (bs : Int)
    (fault : Nat → Option String) (hbs : bs ≠ 0) :
    insert_data_to_sql ([] : List α) tableName bs fault =
      { sent := [], progress := [], raised := none } := by
  unfold insert_data_to_sql
  rw [if_neg hbs]
  rcases lt_or_le bs 0 with h | h
  · rw [if_pos h]
  · rw [if_neg (by omega), List.length_nil, chunkStarts_zero]
    rfl

/-- C10 witness: the empty load at batch size 50000 (the source default)
executes no statement and succeeds. -/
theorem c10_witness :
    (50000 : Int) ≠ 0 ∧
    insert_data_to_sql ([] : List Nat) "t" 50000 noFault =
      { sent := [], progress := [], raised := none } := by
  exact ⟨by decide, c10_empty_rows "t" 50000 noFault (by decide)⟩

/-! ## Claim C3: connection exhaustion -/

/-- C3 counterexample.  Two profiles whose runs record different failure
lists (driver+SSO failing: two entries; driver alone enabled and failing:
one entry) raise the *identical* error value - the fixed-message
`ValueError` - so the raised failure carries no ordered (method, reason)
list and no per-method entries at all. -/
theorem c3_counterexample :
    (get_connection_string ⟨"dsn", "yes", "srv", "db", "u", "p"⟩
        (fun _ => some "refused")).result
      = (get_connection_string ⟨"dsn", "", "srv", "db", "u", "p"⟩
        (fun _ => some "refused")).result ∧
    (get_connection_string ⟨"dsn", "yes", "srv", "db", "u", "p"⟩
        (fun _ => some "refused")).errorLog.length = 2 ∧
    (get_connection_string ⟨"dsn", "", "srv", "db", "u", "p"⟩
        (fun _ => some "refused")).errorLog.length = 1 ∧
    (get_connection_string ⟨"dsn", "yes", "srv", "db", "u", "p"⟩
        (fun _ => some "refused")).result
      = ConnResult.error "No valid connection method could be established." := by
  refine ⟨rfl, rfl, rfl, rfl⟩

/-- C3 amended.  Resolution fails only after every *flag-enabled* method
(driver unless `driver_conn` is `'no'`; SSO exactly when `sso` is `'yes'`;
basic exactly when `sso` is `'no'` - so never both SSO and basic) has been
attempted and failed; the raised error is a `ValueError` with the fixed
message, carrying no failure details, while the per-method failures are
recorded in the log, one entry per attempted method, in attempted
order. -/
theorem c3_exhaustion (cfg : DbConfig) (probe : String → Option String)
    (msg : String)
    (h : (get_connection_string cfg probe).result = ConnResult.error msg) :
    msg = "No valid connection method could be established." ∧
    (get_connection_string cfg probe).attempted = enabledMethods cfg ∧
    (get_connection_string cfg probe).errorLog.length =
      (get_connection_string cfg probe).attempted.length := by
  by_cases hd : lowerStr cfg.driver_conn = "no" <;>
    by_cases hs : lowerStr cfg.sso = "yes" <;>
      by_cases hn : lowerStr cfg.sso = "no"
  all_goals
    first
      | exact absurd (hs ▸ hn) (by decide)
      | (rcases hpd : probe (driverConnStr cfg) with _ | e1 <;>
          rcases hps : probe (ssoConnStr cfg) with _ | e2 <;>
            rcases hpb : probe (basicConnStr cfg) with _ | e3 <;>
              simp_all [get_connection_string, enabledMethods])

/-- C3 witness: the amended statement at a profile where driver and SSO
are enabled and both probes fail: the fixed-message error, the attempted
list `["driver", "sso"]` matching the enabled methods, and one log entry
per attempt. -/
theorem c3_witness :
    (get_connection_string ⟨"dsn", "Yes", "srv", "db", "u", "p"⟩
        (fun _ => some "refused")).result
      = ConnResult.error "No valid connection method could be established." ∧
    (get_connection_string ⟨"dsn", "Yes", "srv", "db", "u", "p"⟩
        (fun _ => some "refused")).attempted
      = enabledMethods ⟨"dsn", "Yes", "srv", "db", "u", "p"⟩ ∧
    (get_connection_string ⟨"dsn", "Yes", "srv", "db", "u", "p"⟩
        (fun _ => some "refused")).errorLog.length = 2 := by
  have h := c3_exhaustion ⟨"dsn", "Yes", "srv", "db", "u", "p"⟩
    (fun _ => some "refused") "No valid connection method could be established."
    rfl
  exact ⟨rfl, h.2.1, rfl⟩

/-! ## Claim C4: method precedence and fallback -/

/-- C4 counterexample.  A profile with an enabled driver method and
`sso = 'yes'`, every probe failing: both earlier methods were attempted
and failed, yet basic (username+password) authentication is never
attempted - its guard requires `sso == 'no'` - and resolution fails
instead.  Username+password is not a universal fallback. -/
theorem c4_counterexample :
    (get_connection_string ⟨"dsn", "yes", "srv", "db", "u", "p"⟩
        (fun _ => some "refused")).attempted = ["driver", "sso"] ∧
    ¬ "basic" ∈ (get_connection_string ⟨"dsn", "yes", "srv", "db", "u", "p"⟩
        (fun _ => some "refused")).attempted ∧
    (get_connection_string ⟨"dsn", "yes", "srv", "db", "u", "p"⟩
        (fun _ => some "refused")).result
      = ConnResult.error "No valid connection method could be established." := by
  refine ⟨rfl, by decide, rfl⟩

/-- C4 amended.  The resolver probes the explicit driver method first
(when enabled), then SSO when `sso = 'yes'`, returning the first method
whose connect-then-close probe succeeds: with a failing driver probe and
a succeeding SSO probe it returns the SSO connection string with exactly
the one recorded driver failure.  Basic authentication is gated on
`sso = 'no'`, not on the earlier methods' failure. -/
theorem c4_precedence (cfg : DbConfig) (probe : String → Option String)
    (e : String) (hd : ¬ lowerStr cfg.driver_conn = "no")
    (hpd : probe (driverConnStr cfg) = some e)
    (hs : lowerStr cfg.sso = "yes")
    (hps : probe (ssoConnStr cfg) = none) :
    get_connection_string cfg probe =
      { result := ConnResult.ok (ssoConnStr cfg),
        errorLog := ["Failed to use driver: " ++ e],
        attempted := ["driver", "sso"] } := by
  simp [get_connection_string, hd, hpd, hs, hps]

/-- C4 witness: the amended statement at a concrete profile whose driver
probe fails and whose SSO probe succeeds. -/
theorem c4_witness :
    get_connection_string ⟨"dsn", "yes", "srv", "db", "u", "p"⟩
        (fun s => if s = ssoConnStr ⟨"dsn", "yes", "srv", "db", "u", "p"⟩
          then none else some "refused")
      = { result := ConnResult.ok
            (ssoConnStr ⟨"dsn", "yes", "srv", "db", "u", "p"⟩),
          errorLog := ["Failed to use driver: refused"],
          attempted := ["driver", "sso"] } := by
  exact c4_precedence ⟨"dsn", "yes", "srv", "db", "u", "p"⟩ _ "refused"
    (by decide) (by decide) (by decide) (by decide)
